import Mathlib

/-!
Shallow embedding of the spotify_quiz game-session engine
(`src/conf.py`, `src/game.py`, `src/server.py`) and verification of the
specified properties.

Modelling conventions:
* Python floats (client-reported elapsed times) are modelled as `ℚ`.
* Python `int(x)` truncates toward zero: `pyInt`.
* Python sequence indexing (including negative indices) is `pyIndex`;
  an out-of-range access (`IndexError`) is `none`.
* Methods that can raise (`IndexError`, `KeyError`, `ValueError`,
  `AssertionError`) return `Option`; `none` is the raised exception.
  A raising call is modelled as producing no successor state (Python's
  in-place partial mutation before the raise is not observed by any
  property below).
* `random.choice` / `random.shuffle` are modelled as nondeterminism:
  the chosen track, the generated choice list and the stream of random
  picks are explicit parameters of the transition (`RoundOracle`,
  `picks`), and the final shuffle is an arbitrary permutation.
* The unbounded recursion of `Game.available_tracks` is modelled with
  explicit fuel; `none` covers both the failed `assert` (empty pool)
  and exhausted fuel (the Python recursion still running).
* Twisted callbacks (timers) and `notify_clients`/logging do not touch
  the modelled state; a scheduled `start_round` or `round_timedout`
  firing is a nondeterministic step of the transition relation.
-/

/-- A track, identified by the full tuple `(spotify_uri, artist, title)`
(`src/server.py` messages, `src/game.py` `all_tracks`). -/
structure Track where
  uri : String
  artist : String
  title : String
deriving DecidableEq, Repr

/-- Opaque client handle (a connected `Receiver` instance). -/
abbrev Client := Nat

/-- Configuration `conf.py`: MIN_PLAYERS = 1 -/
def MIN_PLAYERS : Nat := 1

/-- Configuration `conf.py`: MAX_PLAYERS = 3 -/
def MAX_PLAYERS : Nat := 3

/-- Configuration `conf.py`: NUMBER_OF_ALTERNATIVES = 4 -/
def NUMBER_OF_ALTERNATIVES : Nat := 4

/-- Configuration `conf.py`: POINTS = (89, 55, 34, 21, 13, 8, 5, 3, 2, 1) -/
def POINTS : List Int := [89, 55, 34, 21, 13, 8, 5, 3, 2, 1]

/-- Python `int(q)` on a float/rational: truncation toward zero. -/
def pyInt (q : ℚ) : Int := q.num.tdiv q.den

/-- Python sequence indexing with an `Int` index: negative indices count
from the end, out-of-range is an `IndexError` (`none`). -/
def pyIndex (l : List Int) (i : Int) : Option Int :=
  if 0 ≤ i then l.get? i.toNat
  else if 0 ≤ i + l.length then l.get? (i + l.length).toNat
  else none

/-- Embeds `Game.time_to_points` (game.py:246-258):
`time = int(time); if time > len(POINTS): return 0; return POINTS[time]`.
`none` is the `IndexError` raised by `POINTS[time]`. -/
def time_to_points (time : ℚ) : Option Int :=
  let t := pyInt time
  if t > (POINTS.length : Int) then some 0
  else pyIndex POINTS t

/-- One answer record as stored in `Game.answers`:
`(username, answer, time)` (game.py:282). -/
structure Answer where
  username : String
  answer : Int
  time : ℚ
deriving DecidableEq, Repr

/-- Association-list lookup for a Python dict. -/
def dictGet {α β : Type} [DecidableEq α] (d : List (α × β)) (k : α) : Option β :=
  (d.find? (fun p => decide (p.1 = k))).map (fun p => p.2)

/-- Python dict assignment `d[k] = v`: overwrite the key if present,
otherwise append the new binding. -/
def dictSet {α β : Type} [DecidableEq α] (d : List (α × β)) (k : α) (v : β) :
    List (α × β) :=
  if d.any (fun p => decide (p.1 = k)) then
    d.map (fun p => if p.1 = k then (k, v) else p)
  else d ++ [(k, v)]

/-- Python dict deletion `del d[k]`. -/
def dictDel {α β : Type} [DecidableEq α] (d : List (α × β)) (k : α) :
    List (α × β) :=
  d.filter (fun p => decide (p.1 ≠ k))

/-- State of one `Game` instance (game.py:32-51).  `correct_answer` is
unset in `__init__`; it is modelled as `0` initially (it is only read
by `end_round`/`received_answer`, which in any run of interest happen
after a `start_round` assigned it). -/
structure Game where
  clients : List Client
  waiting : List Client
  users : List (Client × String)
  score : List (String × Int)
  round : Nat
  used_tracks : List Track
  all_tracks : List Track
  is_running : Bool
  choices : List Track
  answers : List Answer
  correct_answer : Int
deriving DecidableEq, Repr

/-- Embeds `Game.__init__` (game.py:32-51): the initial (intermission) state. -/
def Game.start : Game :=
  { clients := [], waiting := [], users := [], score := [], round := 0,
    used_tracks := [], all_tracks := [], is_running := false,
    choices := [], answers := [], correct_answer := 0 }

/-- Embeds `Game.is_full` (game.py:110-111). -/
def Game.is_full (g : Game) : Bool :=
  g.clients.length + g.waiting.length ≥ MAX_PLAYERS

/-- Embeds `Game.enough_players` (game.py:104-105). -/
def Game.enough_players (g : Game) : Bool :=
  g.clients.length ≥ MIN_PLAYERS

/-- Embeds `Game.enough_tracks` (game.py:107-108). -/
def Game.enough_tracks (g : Game) : Bool :=
  g.all_tracks.length ≥ NUMBER_OF_ALTERNATIVES

/-- Embeds `Game.can_start` (game.py:100-102). -/
def Game.can_start (g : Game) : Bool :=
  g.enough_players && g.enough_tracks && !g.is_running

/-- Embeds `Game.join_players` (game.py:265-268). -/
def Game.join_players (g : Game) : Game :=
  { g with clients := g.clients ++ g.waiting, waiting := [] }

/-- Embeds `Game.available_tracks` (game.py:210-221), with explicit fuel for
its self-recursion.  `none` is either the failed `assert` on an empty
pool or fuel exhaustion (the Python recursion has not returned yet).
The function's only side effect, clearing `used_tracks`, is applied to
the recursive call's state exactly as in the source. -/
def Game.available_tracks : Nat → Game → Option (Finset Track)
  | 0, _ => none
  | n + 1, g =>
    if g.all_tracks = [] then none
    else
      let tracks := g.all_tracks.toFinset \ g.used_tracks.toFinset
      if tracks = ∅ ∨ tracks.card < NUMBER_OF_ALTERNATIVES then
        Game.available_tracks n { g with used_tracks := [] }
      else some tracks

/-- The state after the `used_tracks`-clearing side effect of one call
to `Game.available_tracks` (game.py:216-219), assuming the pool itself
is large enough so that a single clearing settles the recursion. -/
def Game.norm_used (g : Game) : Game :=
  let tracks := g.all_tracks.toFinset \ g.used_tracks.toFinset
  if tracks = ∅ ∨ tracks.card < NUMBER_OF_ALTERNATIVES then
    { g with used_tracks := [] }
  else g

/-- The `while True` loop of `Game.generate_choices` (game.py:227-241).
`picks` is the stream of results of `random.choice(...)`; running out
of stream (`none`) means the loop is still waiting for a usable random
pick.  `tracks.filter ... ≠ []` is the Python truthiness test
`if filter(lambda t: t[1] == track[1], tracks)`. -/
def choices_loop : List Track → List Track → Option (List Track)
  | [], tracks =>
    if tracks.length = NUMBER_OF_ALTERNATIVES then some tracks else none
  | p :: rest, tracks =>
    if tracks.length = NUMBER_OF_ALTERNATIVES then some tracks
    else if p ∈ tracks then choices_loop rest tracks
    else if tracks.filter (fun t => t.artist = p.artist) ≠ [] then
      choices_loop rest tracks
    else choices_loop rest (tracks ++ [p])

/-- Embeds `Game.generate_choices` (game.py:223-244) before the final
`random.shuffle`; the shuffle is modelled as an arbitrary permutation
where the result is consumed.  The entry `assert` about the available
pool does not constrain the returned list and is omitted. -/
def generate_choices (picks : List Track) (track : Track) :
    Option (List Track) :=
  choices_loop picks [track]

/-- The comparison used by `sorted(self.answers, key=operator.itemgetter(2))`
(game.py:164): answers are ordered by elapsed time only.  Python's sort is
stable; a stable sort for a total preorder has a unique result, so
`List.insertionSort` (stable) is a faithful model. -/
def ansLe (a b : Answer) : Prop := a.time ≤ b.time

instance : DecidableRel ansLe := fun a b => inferInstanceAs (Decidable (a.time ≤ b.time))

instance : IsTotal Answer ansLe := ⟨fun a b => le_total a.time b.time⟩

instance : IsTrans Answer ansLe := ⟨fun _ _ _ h1 h2 => le_trans h1 h2⟩

/-- The `winner` accumulation of `Game.end_round` (game.py:169-172):
`if not winner: winner = username` — Python truthiness, so both `None`
and the empty string count as "no winner yet". -/
def pyWinner (correct : List Answer) : Option String :=
  correct.foldl
    (fun w a => if w = none ∨ w = some "" then some a.username else w) none

/-- The per-answer score rows appended by the loop of `Game.end_round`
(game.py:170-173): one `(username, time_to_points time)` row per correct
answer, in iteration order.  `none` propagates the `IndexError` that
`time_to_points` can raise. -/
def score_deltas : List Answer → Option (List (String × Int))
  | [] => some []
  | a :: rest =>
    match time_to_points a.time with
    | none => none
    | some p => (score_deltas rest).map (fun l => (a.username, p) :: l)

/-- Embeds `Game.end_round` (game.py:155-178).  Returns the broadcast `winner`
together with the successor state; `none` is the `IndexError` raised
from `time_to_points`.  Sorting happens on all answers, then the
correct ones are filtered out, exactly as in the source. -/
def Game.end_round (g : Game) : Option (Option String × Game) :=
  let g1 : Game := { g with is_running := false }
  let sortedAnswers := List.insertionSort ansLe g1.answers
  let g2 : Game := { g1 with answers := [] }
  let correct := sortedAnswers.filter (fun a => a.answer = g2.correct_answer)
  (score_deltas correct).map (fun deltas =>
    (pyWinner correct, { g2 with score := g2.score ++ deltas }))

/-- Embeds `Game.end_round` viewed as a state transformer (the broadcast winner
dropped), as used by `received_answer`, `remove_client` and
`round_timedout`. -/
def Game.end_round_state (g : Game) : Option Game :=
  (g.end_round).map (fun p => p.2)

/-- Embeds `Game.received_answer` (game.py:270-288).  `none` is the `KeyError`
from `self.users[client]` for a client the session does not know.  The
non-empty `filter` test is Python truthiness (game.py:279). -/
def Game.received_answer (client : Client) (ans : Int) (t : ℚ) (g : Game) :
    Option Game :=
  if !g.is_running then some g
  else
    match dictGet g.users client with
    | none => none
    | some username =>
      if g.answers.filter (fun a => a.username = username) ≠ [] then some g
      else
        let g1 : Game := { g with answers := g.answers ++ [⟨username, ans, t⟩] }
        if g1.answers.length = g1.clients.length then g1.end_round_state
        else some g1

/-- Embeds `Game.remove_client` (game.py:79-91).  `self.clients.remove(client)`
raises `ValueError` when the client is not in `clients` (in particular
for a client waiting in `waiting`); the subsequent `self.users[client]`
raises `KeyError` for an unknown client.  Both raises are `none`. -/
def Game.remove_client (client : Client) (g : Game) : Option Game :=
  if client ∉ g.clients then none
  else
    match dictGet g.users client with
    | none => none
    | some username =>
      let g1 : Game :=
        { g with clients := g.clients.erase client,
                 users := dictDel g.users client,
                 score := g.score.filter (fun sc => sc.1 ≠ username) }
      if !g1.enough_players && g1.is_running then g1.end_round_state
      else some g1

/-- Embeds `Game.add_tracks` (game.py:93-97): append each reported track not
already present, in order. -/
def Game.add_tracks (tracks : List Track) (g : Game) : Game :=
  let newAll :=
    tracks.foldl (fun acc t => if t ∈ acc then acc else acc ++ [t]) g.all_tracks
  { g with all_tracks := newAll }

/-- The outcomes of `random.choice` in `Game.select_track` and of
`Game.generate_choices` for one `start_round`, passed in as
nondeterministic data. -/
structure RoundOracle where
  track : Track
  choices : List Track
deriving DecidableEq, Repr

/-- The `for i, t in enumerate(self.choices): if track == t:
self.correct_answer = i` loop of `Game.start_round` (game.py:139-141):
the last matching index wins; with no match the previous value is
kept. -/
def set_correct (choices : List Track) (track : Track) (old : Int) : Int :=
  choices.enum.foldl (fun acc it => if it.2 = track then (it.1 : Int) else acc) old

/-- Embeds `Game.start_round` (game.py:113-153).  `none` is the failed
`assert not self.is_running` (game.py:122).  When `can_start` fails the
method tail-calls `intermission()`, which only notifies clients and
re-arms the timer — no modelled state changes (game.py:124-125,
180-197).  On success: `round += 1`, `join_players`, the
`available_tracks()` call in the log line (game.py:132) applies its
`used_tracks`-clearing side effect, `is_running = True`, the selected
track is appended to `used_tracks`, `generate_choices` runs (whose
`available_tracks()` calls again apply the clearing side effect) and
its result is stored in `choices`, and `correct_answer` is recomputed.
The randomly selected track and generated choice list come from the
oracle. -/
def Game.start_round (o : RoundOracle) (g : Game) : Option Game :=
  if g.is_running then none
  else if !g.can_start then some g
  else
    let g1 : Game := { g with round := g.round + 1 }
    let g2 : Game := g1.join_players
    let g3 : Game := g2.norm_used
    let g4 : Game := { g3 with is_running := true }
    let g5 : Game := { g4 with used_tracks := g4.used_tracks ++ [o.track] }
    let g6 : Game := g5.norm_used
    let g7 : Game := { g6 with choices := o.choices }
    some { g7 with correct_answer := set_correct o.choices o.track g7.correct_answer }

/-- Embeds `Game.add_client` (game.py:60-77).  Returns the method's boolean
result together with the successor state.  When the added player makes
`can_start` true, `start_round` runs inside the call; its `assert`
cannot fire there (`can_start` implies `not is_running`), but the type
threads the possibility through. -/
def Game.add_client (o : RoundOracle) (client : Client) (username : String)
    (g : Game) : Option (Bool × Game) :=
  if g.is_full then some (false, g)
  else
    let g1 : Game := { g with users := dictSet g.users client username }
    if g1.is_running then some (true, { g1 with waiting := g1.waiting ++ [client] })
    else
      let g2 : Game := { g1 with clients := g1.clients ++ [client] }
      if g2.can_start then (g2.start_round o).map (fun g3 => (true, g3))
      else some (true, g2)

/-- Embeds `Game.round_timedout` (game.py:260-263): the `ROUND_TIME` timer
fired; it calls `end_round` unconditionally. -/
def Game.round_timedout (g : Game) : Option Game :=
  g.end_round_state

/-- Embeds `Server.__init__` (server.py:44-46): the games list and the
client → game-index routing dict. -/
structure Server where
  games : List Game
  clients : List (Client × Nat)
deriving DecidableEq, Repr

/-- Embeds `Server.client_disconnected` (server.py:83-87):
`game = self.games[self.clients[client]]` raises `KeyError` for an
unmapped client (`none`); then `game.remove_client(client)` (which may
itself raise) and `del self.clients[client]`. -/
def Server.client_disconnected (client : Client) (s : Server) : Option Server :=
  match dictGet s.clients client with
  | none => none
  | some i =>
    match s.games.get? i with
    | none => none
    | some g =>
      (g.remove_client client).map (fun g2 =>
        { games := s.games.set i g2, clients := dictDel s.clients client })

/-- One externally triggered transition of a `Game`: a client message
(`connect`, `add_tracks`, `answer`), a disconnect, or a timer firing
(the intermission timer invokes `start_round`, the round timer invokes
`round_timedout`).  Randomness is nondeterministic oracle data.  Steps
only exist for non-raising executions. -/
inductive Step : Game → Game → Prop
  | addClient (o : RoundOracle) (c : Client) (u : String) (b : Bool)
      (g gg : Game) : g.add_client o c u = some (b, gg) → Step g gg
  | removeClient (c : Client) (g gg : Game) :
      g.remove_client c = some gg → Step g gg
  | addTracks (ts : List Track) (g : Game) : Step g (g.add_tracks ts)
  | startRound (o : RoundOracle) (g gg : Game) :
      g.start_round o = some gg → Step g gg
  | receivedAnswer (c : Client) (a : Int) (t : ℚ) (g gg : Game) :
      g.received_answer c a t = some gg → Step g gg
  | roundTimedout (g gg : Game) : g.round_timedout = some gg → Step g gg

/-- States of a `Game` reachable from `Game.__init__` by any sequence
of client messages, disconnects and timer firings. -/
def Reachable (g : Game) : Prop := Relation.ReflTransGen Step Game.start g

/-- The quantity `|activeClients| + |pendingClients|`. -/
def Game.playerCount (g : Game) : Nat := g.clients.length + g.waiting.length

/-- Concrete track used in the scenarios below. -/
def tr1 : Track := ⟨"spotify:track:1", "artist1", "title1"⟩

/-- Concrete track used in the scenarios below. -/
def tr2 : Track := ⟨"spotify:track:2", "artist2", "title2"⟩

/-- Concrete track used in the scenarios below. -/
def tr3 : Track := ⟨"spotify:track:3", "artist3", "title3"⟩

/-- Concrete track used in the scenarios below. -/
def tr4 : Track := ⟨"spotify:track:4", "artist4", "title4"⟩

/-- A dummy oracle for `add_client` calls that cannot reach `start_round`. -/
def o0 : RoundOracle := ⟨tr1, []⟩

/-- The oracle for the round started in the concrete trace: `select_track`
picked `tr1` and `generate_choices` returned `[tr1, tr2, tr3, tr4]`. -/
def oR : RoundOracle := ⟨tr1, [tr1, tr2, tr3, tr4]⟩

/-- Trace state: after client 100 ("alice") connects to a fresh game. -/
def s1 : Game :=
  { clients := [100], waiting := [], users := [(100, "alice")], score := [],
    round := 0, used_tracks := [], all_tracks := [], is_running := false,
    choices := [], answers := [], correct_answer := 0 }

/-- Trace state: after client 101 ("carol") also connects. -/
def s2 : Game :=
  { clients := [100, 101], waiting := [],
    users := [(100, "alice"), (101, "carol")], score := [],
    round := 0, used_tracks := [], all_tracks := [], is_running := false,
    choices := [], answers := [], correct_answer := 0 }

/-- Trace state: after four distinct-artist tracks are reported. -/
def s3 : Game :=
  { clients := [100, 101], waiting := [],
    users := [(100, "alice"), (101, "carol")], score := [],
    round := 0, used_tracks := [], all_tracks := [tr1, tr2, tr3, tr4],
    is_running := false, choices := [], answers := [], correct_answer := 0 }

/-- Trace state: after the intermission timer fires and round 1 starts
(`used_tracks` ends empty: with exactly four tracks, the
`available_tracks` call inside `generate_choices` clears it again). -/
def s4 : Game :=
  { clients := [100, 101], waiting := [],
    users := [(100, "alice"), (101, "carol")], score := [],
    round := 1, used_tracks := [], all_tracks := [tr1, tr2, tr3, tr4],
    is_running := true, choices := [tr1, tr2, tr3, tr4], answers := [],
    correct_answer := 0 }

/-- Trace state: client 102 ("bob") connects mid-round and is parked in
`waiting`. -/
def s5 : Game :=
  { clients := [100, 101], waiting := [102],
    users := [(100, "alice"), (101, "carol"), (102, "bob")], score := [],
    round := 1, used_tracks := [], all_tracks := [tr1, tr2, tr3, tr4],
    is_running := true, choices := [tr1, tr2, tr3, tr4], answers := [],
    correct_answer := 0 }

/-- Trace state: the waiting client 102 sends an answer and it is
recorded, although 102 is not an active client. -/
def s6 : Game :=
  { clients := [100, 101], waiting := [102],
    users := [(100, "alice"), (101, "carol"), (102, "bob")], score := [],
    round := 1, used_tracks := [], all_tracks := [tr1, tr2, tr3, tr4],
    is_running := true, choices := [tr1, tr2, tr3, tr4],
    answers := [⟨"bob", 0, 1⟩], correct_answer := 0 }

/-- A game whose pool is non-empty but smaller than
`NUMBER_OF_ALTERNATIVES`: `available_tracks` recurses forever on it. -/
def gSmall : Game := { Game.start with all_tracks := [tr1] }

/-- A full game (three active clients). -/
def gFull : Game :=
  { Game.start with
    clients := [1, 2, 3],
    users := [(1, "ann"), (2, "ben"), (3, "cat")] }

/-- A running round in which the fastest correct answer carries the
empty username: Python truthiness makes the `winner` computation skip
it. -/
def gC6 : Game :=
  { Game.start with
    clients := [100], users := [(100, "eve")],
    is_running := true, answers := [⟨"", 0, 1⟩, ⟨"bob", 0, 2⟩],
    correct_answer := 0 }

/-- A running round with a single correct answer by "bob" after one
second. -/
def gW : Game :=
  { Game.start with
    clients := [100, 101],
    users := [(100, "bob"), (101, "amy")], is_running := true,
    answers := [⟨"bob", 0, 1⟩], correct_answer := 0 }

/-- A freshly started server: no games, no routing entries. -/
def srvEmpty : Server := ⟨[], []⟩

/-- A server with one game and one mapped client. -/
def srv2 : Server := ⟨[s1], [(100, 0)]⟩

-- sanity checks (concrete evaluations of the translated definitions)
example : time_to_points 0 = some 89 := by decide
example : time_to_points 1 = some 55 := by decide
example : time_to_points 11 = some 0 := by decide
example : pyInt (-2) = -2 := by decide
example : generate_choices [⟨"u2", "a2", "t2"⟩, ⟨"u3", "a3", "t3"⟩, ⟨"u4", "a4", "t4"⟩]
    ⟨"u1", "a1", "t1"⟩ =
    some [⟨"u1", "a1", "t1"⟩, ⟨"u2", "a2", "t2"⟩, ⟨"u3", "a3", "t3"⟩, ⟨"u4", "a4", "t4"⟩] := by
  decide

/-- Helper: on `gSmall` (a non-empty pool smaller than
`NUMBER_OF_ALTERNATIVES`) `Game.available_tracks` never returns,
whatever the fuel: every retry clears the already-empty `used_tracks`
and recurses on the identical state. -/
theorem available_tracks_diverges_on_gSmall (n : Nat) :
    Game.available_tracks n gSmall = none := by
  induction n with
  | zero => rfl
  | succ n ih =>
    have h : ({ gSmall with used_tracks := [] } : Game) = gSmall := rfl
    rw [Game.available_tracks, if_neg (by decide), if_pos (by decide), h, ih]

/-- C1: the claim states that `pointsFor` returns `POINTS[floor t]` for
`floor t < len(POINTS)`, `0` for `floor t ≥ len(POINTS)`, and clamps
negative times to bucket 0.  The code instead raises `IndexError` at
`t = 10` (the guard is `>`, not `>=`, so `POINTS[10]` is evaluated) and
applies Python truncation plus negative indexing to negative times
(`t = -2` scores `POINTS[-2] = 2`, not `POINTS[0] = 89`).  This theorem
evaluates the translated code at the failing inputs, together with two
in-range evaluations agreeing with the claim. -/
theorem C1_time_to_points_eval :
    time_to_points 10 = none ∧
    time_to_points (-2) = some 2 ∧
    time_to_points 11 = some 0 ∧
    time_to_points 1 = some 55 := by decide

/-- C2 counterexample: on the non-empty pool `[tr1]` (fewer than
`NUMBER_OF_ALTERNATIVES` tracks) the computation has not produced any
result after its initial attempt plus the single retry the claim
allows (fuel 2), refuting "retries at most once ... signals
`InsufficientTracks` ... always terminates" — by
`available_tracks_diverges_on_gSmall` it never returns at all, and the
code has no `InsufficientTracks` signal. -/
theorem C2_available_tracks_counterexample :
    Game.available_tracks 2 gSmall = none ∧ gSmall.all_tracks ≠ [] :=
  ⟨available_tracks_diverges_on_gSmall 2, by decide⟩

/-- C2 amended: when the track pool itself holds at least
`NUMBER_OF_ALTERNATIVES` distinct tracks, `available_tracks` computes
`trackPool - usedTracks`, clearing `usedTracks` and retrying exactly
once when that difference is too small; the initial attempt plus one
retry (fuel 2) always suffices and the result has at least
`NUMBER_OF_ALTERNATIVES` elements.  (For a non-empty pool smaller than
that, the code instead recurses forever; see the counterexample.) -/
theorem C2_available_tracks_amended (g : Game)
    (h : NUMBER_OF_ALTERNATIVES ≤ g.all_tracks.toFinset.card) :
    Game.available_tracks 2 g =
      some (if (g.all_tracks.toFinset \ g.used_tracks.toFinset).card <
              NUMBER_OF_ALTERNATIVES
            then g.all_tracks.toFinset
            else g.all_tracks.toFinset \ g.used_tracks.toFinset) ∧
    NUMBER_OF_ALTERNATIVES ≤
      (if (g.all_tracks.toFinset \ g.used_tracks.toFinset).card <
          NUMBER_OF_ALTERNATIVES
       then g.all_tracks.toFinset
       else g.all_tracks.toFinset \ g.used_tracks.toFinset).card := by
  have hpos : 0 < g.all_tracks.toFinset.card := by
    calc 0 < NUMBER_OF_ALTERNATIVES := by decide
    _ ≤ _ := h
  have hne : g.all_tracks ≠ [] := by
    intro e
    rw [e] at hpos
    simp at hpos
  refine ⟨?_, ?_⟩
  · by_cases hlt : (g.all_tracks.toFinset \ g.used_tracks.toFinset).card <
        NUMBER_OF_ALTERNATIVES
    · rw [Game.available_tracks, if_neg hne, if_pos (Or.inr hlt),
        Game.available_tracks]
      simp only [List.toFinset_nil, Finset.sdiff_empty]
      rw [if_neg hne, if_neg, if_pos hlt]
      push_neg
      constructor
      · intro e
        rw [e] at hpos
        simp at hpos
      · omega
    · have hnempty : ¬(g.all_tracks.toFinset \ g.used_tracks.toFinset = ∅ ∨
          (g.all_tracks.toFinset \ g.used_tracks.toFinset).card <
            NUMBER_OF_ALTERNATIVES) := by
        push_neg
        constructor
        · intro e
          rw [e] at hlt
          simp [NUMBER_OF_ALTERNATIVES] at hlt
        · omega
      rw [Game.available_tracks, if_neg hne, if_neg hnempty, if_neg hlt]
  · by_cases hlt : (g.all_tracks.toFinset \ g.used_tracks.toFinset).card <
        NUMBER_OF_ALTERNATIVES
    · rw [if_pos hlt]
      exact h
    · rw [if_neg hlt]
      omega

/-- C2 amended, witness: a concrete pool of four tracks with one track
already used: the difference has only three elements, so `usedTracks`
is cleared and the whole pool is returned. -/
theorem C2_available_tracks_amended_witness :
    Game.available_tracks 2 { Game.start with
      all_tracks := [tr1, tr2, tr3, tr4], used_tracks := [tr1] } =
      some (if (([tr1, tr2, tr3, tr4].toFinset : Finset Track) \
              [tr1].toFinset).card < NUMBER_OF_ALTERNATIVES
            then [tr1, tr2, tr3, tr4].toFinset
            else ([tr1, tr2, tr3, tr4].toFinset : Finset Track) \
              [tr1].toFinset) ∧
    NUMBER_OF_ALTERNATIVES ≤
      (if (([tr1, tr2, tr3, tr4].toFinset : Finset Track) \
          [tr1].toFinset).card < NUMBER_OF_ALTERNATIVES
       then [tr1, tr2, tr3, tr4].toFinset
       else ([tr1, tr2, tr3, tr4].toFinset : Finset Track) \
         [tr1].toFinset).card :=
  C2_available_tracks_amended
    { Game.start with all_tracks := [tr1, tr2, tr3, tr4], used_tracks := [tr1] }
    (by decide)

/-- C4: the claim states that `RemoveClient` works for every member of
the session, including one waiting in `pendingClients`, and never
crashes.  In the reachable state `s5`
client 102 ("bob") is a session member sitting in `waiting`, yet
`remove_client` raises `ValueError` from `self.clients.remove(client)`
(modelled as `none`): the claim is the intent, the code a slip. -/
theorem C4_remove_pending_client_raises :
    102 ∈ s5.waiting ∧ dictGet s5.users 102 = some "bob" ∧
    s5.remove_client 102 = none := by decide

/-- C5 counterexample: on a server with no client mapping (a client
that disconnected during handshake, before its `connect` message),
`client_disconnected` raises `KeyError` from `self.clients[client]`
(modelled as `none`) instead of being a silent no-op. -/
theorem C5_unmapped_disconnect_counterexample :
    dictGet srvEmpty.clients 7 = none ∧
    srvEmpty.client_disconnected 7 = none := by decide

/-- C5 amended: for every client that is not mapped to a session,
`Matchmaker.removeClient` raises `KeyError` (it is not a silent no-op);
the raise happens before any mutation, so the session list and routing
table are left unchanged. -/
theorem C5_unmapped_disconnect_amended (s : Server) (c : Client)
    (h : dictGet s.clients c = none) : s.client_disconnected c = none := by
  simp [Server.client_disconnected, h]

/-- C5 amended, witness: a server with one game and one mapped client;
disconnecting the unmapped client 55 raises. -/
theorem C5_unmapped_disconnect_amended_witness :
    srv2.client_disconnected 55 = none :=
  C5_unmapped_disconnect_amended srv2 55 (by decide)

/-- C9 counterexample: in the reachable running state `s4`,
`start_round` raises `AssertionError` from
`assert not self.is_running` (modelled as `none`) instead of being a
no-op as the claim states ("including when the session is already
Running"). -/
theorem C9_start_round_counterexample :
    s4.is_running = true ∧ s4.start_round oR = none := by decide

/-- C9 amended: when `start_round` is invoked in intermission
(`is_running` false) with `can_start()` false, it is a no-op that
re-enters intermission, leaving the state unchanged and raising
nothing; but when invoked while a round is already running, the entry
assertion fails (`AssertionError`), so that case is not a no-op. -/
theorem C9_start_round_amended :
    (∀ (o : RoundOracle) (g : Game), g.is_running = false →
      g.can_start = false → g.start_round o = some g) ∧
    (∀ (o : RoundOracle) (g : Game), g.is_running = true →
      g.start_round o = none) := by
  constructor
  · intro o g hrun hcs
    simp [Game.start_round, hrun, hcs]
  · intro o g hrun
    simp [Game.start_round, hrun]

/-- C9 amended, witness: in state `s1` (one player, no tracks, not
running) `start_round` is a no-op; in the running state `s4` it
raises. -/
theorem C9_start_round_amended_witness :
    s1.start_round o0 = some s1 ∧ s4.start_round o0 = none :=
  ⟨C9_start_round_amended.1 o0 s1 (by decide) (by decide),
   C9_start_round_amended.2 o0 s4 (by decide)⟩

/-- C10: an `AddClient` call on a full session returns `False` and the
state is returned entirely unchanged — the capacity check is the first
thing `add_client` does, so no username is recorded, no list is
touched and no round is started. -/
theorem C10_add_client_full_atomic (o : RoundOracle) (c : Client)
    (u : String) (g : Game) (h : g.is_full = true) :
    g.add_client o c u = some (false, g) := by
  simp [Game.add_client, h]

/-- C10 witness: adding a fourth client to the full game `gFull`
reports failure and leaves the state untouched. -/
theorem C10_add_client_full_atomic_witness :
    gFull.add_client o0 7 "dan" = some (false, gFull) :=
  C10_add_client_full_atomic o0 7 "dan" gFull (by decide)

/-- Helper: invariant of the `generate_choices` loop.  If the running
list has pairwise-distinct artists and is not over-long, then any list
the loop returns has exactly `NUMBER_OF_ALTERNATIVES` elements,
contains everything the running list contained, and still has
pairwise-distinct artists. -/
theorem choices_loop_spec : ∀ (picks tracks out : List Track),
    (tracks.map Track.artist).Nodup →
    tracks.length ≤ NUMBER_OF_ALTERNATIVES →
    choices_loop picks tracks = some out →
    out.length = NUMBER_OF_ALTERNATIVES ∧ (∀ x ∈ tracks, x ∈ out) ∧
    (out.map Track.artist).Nodup := by
  intro picks
  induction picks with
  | nil =>
    intro tracks out hnd hlen hrun
    rw [choices_loop] at hrun
    split at hrun
    · rename_i hfour
      cases hrun
      exact ⟨hfour, fun x hx => hx, hnd⟩
    · cases hrun
  | cons p rest ih =>
    intro tracks out hnd hlen hrun
    rw [choices_loop] at hrun
    split at hrun
    · rename_i hfour
      cases hrun
      exact ⟨hfour, fun x hx => hx, hnd⟩
    · rename_i hfour
      split at hrun
      · exact ih tracks out hnd hlen hrun
      · split at hrun
        · exact ih tracks out hnd hlen hrun
        · rename_i hmem hfil
          have hfilnil : tracks.filter (fun t => t.artist = p.artist) = [] := by
            by_contra hc
            exact hfil hc
          have hart : p.artist ∉ tracks.map Track.artist := by
            simp only [List.mem_map]
            rintro ⟨t, ht, he⟩
            have hnot := List.filter_eq_nil_iff.mp hfilnil t ht
            simp only [decide_eq_true_eq] at hnot
            exact hnot he
          have hnd2 : ((tracks ++ [p]).map Track.artist).Nodup := by
            simp only [List.map_append, List.map_cons, List.map_nil]
            rw [List.nodup_append]
            refine ⟨hnd, List.nodup_singleton _, ?_⟩
            intro a ha hb
            simp only [List.mem_singleton] at hb
            subst hb
            exact hart ha
          have hlen2 : (tracks ++ [p]).length ≤ NUMBER_OF_ALTERNATIVES := by
            have h4 : NUMBER_OF_ALTERNATIVES = 4 := rfl
            simp only [List.length_append, List.length_singleton]
            omega
          obtain ⟨h1, h2, h3⟩ := ih (tracks ++ [p]) out hnd2 hlen2 hrun
          exact ⟨h1, fun x hx => h2 x (List.mem_append_left _ hx), h3⟩

/-- C8: any list returned by `generate_choices` (for any stream of
random picks), after the final shuffle (any permutation), has exactly
`NUMBER_OF_ALTERNATIVES` elements, contains the seed track, has no
duplicate track and no two tracks sharing an artist.  Randomness is
modelled as nondeterminism, so this holds for every terminating run of
the loop; the witness exhibits one such run. -/
theorem C8_generate_choices (picks : List Track) (seed : Track)
    (pre result : List Track)
    (hgen : generate_choices picks seed = some pre)
    (hshuffle : result.Perm pre) :
    result.length = NUMBER_OF_ALTERNATIVES ∧ seed ∈ result ∧
    result.Nodup ∧ (result.map Track.artist).Nodup := by
  obtain ⟨hlen, hsub, hnd⟩ :=
    choices_loop_spec picks [seed] pre (by simp)
      (by simp [NUMBER_OF_ALTERNATIVES]) hgen
  have hndmap : (result.map Track.artist).Nodup :=
    ((hshuffle.map Track.artist).nodup_iff).mpr hnd
  refine ⟨?_, ?_, hndmap.of_map, hndmap⟩
  · rw [hshuffle.length_eq]
    exact hlen
  · exact hshuffle.mem_iff.mpr (hsub seed (by simp))

/-- C8 witness: a concrete run of `generate_choices` on the
four-distinct-artist pool, with the identity shuffle, evaluated and
fed through the theorem. -/
theorem C8_generate_choices_witness :
    ([tr1, tr2, tr3, tr4] : List Track).length = NUMBER_OF_ALTERNATIVES ∧
    tr1 ∈ [tr1, tr2, tr3, tr4] ∧
    ([tr1, tr2, tr3, tr4] : List Track).Nodup ∧
    (([tr1, tr2, tr3, tr4] : List Track).map Track.artist).Nodup :=
  C8_generate_choices [tr2, tr3, tr4] tr1 [tr1, tr2, tr3, tr4]
    [tr1, tr2, tr3, tr4] (by decide) (List.Perm.refl _)

/-- Helper: inserting an element that is `r`-below everything in the
list puts it in front. -/
theorem orderedInsert_front {α : Type} (r : α → α → Prop) [DecidableRel r]
    (a : α) (l : List α) (h : ∀ x ∈ l, r a x) :
    List.orderedInsert r a l = a :: l := by
  cases l with
  | nil => rfl
  | cons b t => rw [List.orderedInsert, if_pos (h b (by simp))]

set_option linter.unnecessarySeqFocus false in
/-- Helper: filtering commutes with ordered insertion into a sorted
list (for a total transitive comparison). -/
theorem filter_orderedInsert {α : Type} (r : α → α → Prop) [DecidableRel r]
    [IsTotal α r] [IsTrans α r] (p : α → Bool) (a : α) :
    ∀ l : List α, List.Sorted r l →
    (List.orderedInsert r a l).filter p =
      if p a then List.orderedInsert r a (l.filter p) else l.filter p := by
  intro l
  induction l with
  | nil =>
    intro _
    cases hpa : p a <;> simp [List.orderedInsert, List.filter, hpa]
  | cons b t iht =>
    intro hs
    have hchain : ∀ x ∈ t, r b x := (List.sorted_cons.mp hs).1
    have hsort : List.Sorted r t := (List.sorted_cons.mp hs).2
    by_cases hab : r a b
    · rw [List.orderedInsert, if_pos hab]
      cases hpa : p a
      · simp [List.filter_cons, hpa]
      · have hall : ∀ x ∈ (b :: t).filter p, r a x := by
          intro x hx
          rcases List.mem_cons.mp (List.mem_of_mem_filter hx) with he | ht2
          · subst he
            exact hab
          · exact IsTrans.trans a b x hab (hchain x ht2)
        rw [List.filter_cons, if_pos (by simp [hpa]), if_pos (by simp [hpa]),
          orderedInsert_front r a _ hall]
    · rw [List.orderedInsert, if_neg hab]
      rw [List.filter_cons, List.filter_cons]
      cases hpa : p a <;> cases hpb : p b <;>
        simp only [Bool.false_eq_true, if_false, if_true, iht hsort, hpa, hpb,
          if_pos, if_neg] <;>
        simp [List.orderedInsert, if_neg hab, iht hsort, hpa]

/-- Helper: filtering commutes with the stable sort: sorting then
filtering equals filtering then sorting. -/
theorem filter_insertionSort {α : Type} (r : α → α → Prop) [DecidableRel r]
    [IsTotal α r] [IsTrans α r] (p : α → Bool) (l : List α) :
    (List.insertionSort r l).filter p = List.insertionSort r (l.filter p) := by
  induction l with
  | nil => rfl
  | cons a t ih =>
    rw [List.insertionSort,
      filter_orderedInsert r p a _ (List.sorted_insertionSort r t),
      List.filter_cons]
    by_cases hpa : p a
    · rw [if_pos hpa, if_pos (by simp [hpa]), ih, List.insertionSort]
    · rw [if_neg hpa, if_neg (by simp [hpa]), ih]

/-- Helper: when every answer in the list gets a defined score,
`score_deltas` returns exactly one `(username, points)` row per answer,
in order. -/
theorem score_deltas_eq : ∀ l : List Answer,
    (∀ a ∈ l, (time_to_points a.time).isSome = true) →
    score_deltas l =
      some (l.map (fun a => (a.username, (time_to_points a.time).getD 0))) := by
  intro l
  induction l with
  | nil =>
    intro _
    rfl
  | cons a t ih =>
    intro h
    obtain ⟨p, hp⟩ := Option.isSome_iff_exists.mp (h a (by simp))
    rw [score_deltas, hp, ih (fun x hx => h x (by simp [hx]))]
    simp [hp]

/-- Helper: the Python winner fold returns `None` exactly on an empty
list of correct answers. -/
theorem pyWinner_eq_none_iff (l : List Answer) :
    pyWinner l = none ↔ l = [] := by
  constructor
  · intro h
    cases l with
    | nil => rfl
    | cons a t =>
      exfalso
      have hstep : ∀ (u : List Answer) (s : String),
          u.foldl (fun w x =>
            if w = none ∨ w = some "" then some x.username else w)
            (some s) ≠ none := by
        intro u
        induction u with
        | nil =>
          intro s hc
          cases hc
        | cons b v ihv =>
          intro s
          simp only [List.foldl_cons]
          by_cases hs : ((some s : Option String) = none ∨
              (some s : Option String) = some "")
          · rw [if_pos hs]
            exact ihv _
          · rw [if_neg hs]
            exact ihv _
      have h2 : pyWinner (a :: t) =
          t.foldl (fun w x =>
            if w = none ∨ w = some "" then some x.username else w)
            (some a.username) := by
        rw [pyWinner]
        simp
      exact hstep t a.username (h2 ▸ h)
  · intro h
    subst h
    rfl

/-- C6 counterexample: the claim says the winner is the *first* entry
of the time-sorted correct answers.  In `gC6` the fastest correct
answer has the empty username; Python's `if not winner:` treats the
empty string as "no winner yet", so the code reports "bob" (the second
correct answer) while the claim demands the first entry's username,
the empty string. -/
theorem C6_end_round_counterexample :
    (gC6.end_round).map (fun p => p.1) = some (some "bob") ∧
    ((List.insertionSort ansLe (gC6.answers.filter
        (fun a => a.answer = gC6.correct_answer))).head?).map
      (fun a => a.username) = some "" := by decide

/-- C6 amended: provided every correct answer's elapsed time maps to a
defined points value (see C1 for the inputs where it does not),
`end_round` filters the answers to those matching `correct_answer`,
stable-sorts them ascending by elapsed time, appends exactly one
`(username, pointsFor(elapsed))` delta per correct respondent to the
scoreboard in that sorted order, and broadcasts as winner the first
entry of that sorted list whose username is non-empty (an empty-string
username is skipped by Python truthiness; the winner is `None` exactly
when there is no correct answer).  Incorrect answers contribute no
delta. -/
theorem C6_end_round_amended (g : Game)
    (h : ∀ a ∈ g.answers, a.answer = g.correct_answer →
      (time_to_points a.time).isSome = true) :
    g.end_round = some
      (pyWinner (List.insertionSort ansLe
        (g.answers.filter (fun a => a.answer = g.correct_answer))),
       { g with
         is_running := false, answers := [],
         score := g.score ++ (List.insertionSort ansLe
            (g.answers.filter (fun a => a.answer = g.correct_answer))).map
              (fun a => (a.username, (time_to_points a.time).getD 0)) }) ∧
    (pyWinner (List.insertionSort ansLe
        (g.answers.filter (fun a => a.answer = g.correct_answer))) = none ↔
      g.answers.filter (fun a => a.answer = g.correct_answer) = []) := by
  have hcomm : (List.insertionSort ansLe g.answers).filter
      (fun a => decide (a.answer = g.correct_answer)) =
      List.insertionSort ansLe
        (g.answers.filter (fun a => a.answer = g.correct_answer)) :=
    filter_insertionSort ansLe _ g.answers
  have hsome : ∀ a ∈ List.insertionSort ansLe
      (g.answers.filter (fun a => a.answer = g.correct_answer)),
      (time_to_points a.time).isSome = true := by
    intro a ha
    have hmem := (List.perm_insertionSort ansLe _).mem_iff.mp ha
    have hfm := List.mem_filter.mp hmem
    exact h a hfm.1 (by simpa using hfm.2)
  constructor
  · show (Game.end_round g) = _
    rw [Game.end_round]
    simp only []
    rw [hcomm, score_deltas_eq _ hsome]
    rfl
  · constructor
    · intro hw
      have := (pyWinner_eq_none_iff _).mp hw
      have hperm := List.perm_insertionSort ansLe
        (g.answers.filter (fun a => a.answer = g.correct_answer))
      rw [this] at hperm
      exact List.Perm.eq_nil (List.Perm.symm hperm)
    · intro hnil
      rw [hnil]
      rfl

/-- C6 amended, witness: the single correct one-second answer by "bob"
in `gW` wins and scores `POINTS[1] = 55`. -/
theorem C6_end_round_amended_witness :
    (gW.end_round = some
      (pyWinner (List.insertionSort ansLe
        (gW.answers.filter (fun a => a.answer = gW.correct_answer))),
       { gW with
         is_running := false, answers := [],
         score := gW.score ++ (List.insertionSort ansLe
            (gW.answers.filter (fun a => a.answer = gW.correct_answer))).map
              (fun a => (a.username, (time_to_points a.time).getD 0)) }) ∧
    (pyWinner (List.insertionSort ansLe
        (gW.answers.filter (fun a => a.answer = gW.correct_answer))) = none ↔
      gW.answers.filter (fun a => a.answer = gW.correct_answer) = [])) ∧
    (gW.end_round).map (fun p => p.1) = some (some "bob") :=
  ⟨C6_end_round_amended gW (by decide), by decide⟩


/-- Helper: eliminate `Option.map f x = some b`. -/
theorem optionMap_eq_some {α β : Type} (f : α → β) (x : Option α) (b : β)
    (h : x.map f = some b) : ∃ a, x = some a ∧ f a = b := by
  cases x with
  | none => cases h
  | some a =>
    refine ⟨a, rfl, ?_⟩
    injection h

/-- Helper: the state delivered by `end_round` is the input state with
the round stopped, the answers cleared and some rows appended to the
scoreboard; nothing else changes. -/
theorem end_round_shape (g : Game) (w : Option String) (gg : Game)
    (h : g.end_round = some (w, gg)) :
    ∃ deltas, gg =
      { g with
        is_running := false, answers := [],
        score := g.score ++ deltas } := by
  rw [Game.end_round] at h
  simp only [] at h
  obtain ⟨deltas, hsd, hba⟩ := optionMap_eq_some _ _ _ h
  refine ⟨deltas, ?_⟩
  have h2 := congrArg Prod.snd hba
  exact h2.symm

/-- Helper: `end_round_state` in the same shape. -/
theorem end_round_state_shape (g gg : Game)
    (h : g.end_round_state = some gg) :
    ∃ deltas, gg =
      { g with
        is_running := false, answers := [],
        score := g.score ++ deltas } := by
  rw [Game.end_round_state] at h
  obtain ⟨⟨w, g2⟩, hsd, hba⟩ := optionMap_eq_some _ _ _ h
  cases hba
  exact end_round_shape g w g2 hsd

/-- Helper: `norm_used` does not touch `answers`. -/
theorem norm_used_answers (g : Game) : (g.norm_used).answers = g.answers := by
  rw [Game.norm_used]
  split
  · rfl
  · rfl

/-- Helper: `norm_used` does not touch `clients`. -/
theorem norm_used_clients (g : Game) : (g.norm_used).clients = g.clients := by
  rw [Game.norm_used]
  split
  · rfl
  · rfl

/-- Helper: `norm_used` does not touch `waiting`. -/
theorem norm_used_waiting (g : Game) : (g.norm_used).waiting = g.waiting := by
  rw [Game.norm_used]
  split
  · rfl
  · rfl

/-- Helper: `norm_used` does not touch `users`. -/
theorem norm_used_users (g : Game) : (g.norm_used).users = g.users := by
  rw [Game.norm_used]
  split
  · rfl
  · rfl

/-- Helper: a successful `start_round` never changes the recorded
answers or the users dict, and preserves the combined number of active
and waiting players (it only moves waiting players into the active
list). -/
theorem start_round_pres (o : RoundOracle) (g gg : Game)
    (h : g.start_round o = some gg) :
    gg.answers = g.answers ∧ gg.playerCount = g.playerCount ∧
    gg.users = g.users := by
  rw [Game.start_round] at h
  split at h
  · cases h
  · split at h
    · injection h with h2
      subst h2
      exact ⟨rfl, rfl, rfl⟩
    · injection h with h2
      subst h2
      refine ⟨?_, ?_, ?_⟩
      · simp only [norm_used_answers, Game.join_players]
      · simp only [Game.playerCount, norm_used_clients, norm_used_waiting,
          Game.join_players, List.length_append, List.length_nil]
        omega
      · simp only [norm_used_users, Game.join_players]

/-- Helper: a successful `received_answer` never changes the client
lists or the users dict. -/
theorem received_answer_pres (c : Client) (a : Int) (t : ℚ) (g gg : Game)
    (h : g.received_answer c a t = some gg) :
    gg.clients = g.clients ∧ gg.waiting = g.waiting ∧ gg.users = g.users := by
  rw [Game.received_answer] at h
  split at h
  · injection h with h2
    subst h2
    exact ⟨rfl, rfl, rfl⟩
  · split at h
    · cases h
    · split at h
      · injection h with h2
        subst h2
        exact ⟨rfl, rfl, rfl⟩
      · simp only [] at h
        split at h
        · obtain ⟨deltas, hgg⟩ := end_round_state_shape _ _ h
          subst hgg
          exact ⟨rfl, rfl, rfl⟩
        · injection h with h2
          subst h2
          exact ⟨rfl, rfl, rfl⟩

/-- Helper: `received_answer` preserves the at-most-one-answer-per-
username invariant: it refuses a second answer for a username already
present, and `end_round` clears the list. -/
theorem received_answer_nodup (c : Client) (a : Int) (t : ℚ) (g gg : Game)
    (hnd : (g.answers.map (fun x => x.username)).Nodup)
    (h : g.received_answer c a t = some gg) :
    (gg.answers.map (fun x => x.username)).Nodup := by
  rw [Game.received_answer] at h
  split at h
  · injection h with h2
    subst h2
    exact hnd
  · split at h
    · cases h
    · rename_i u heq
      split at h
      · injection h with h2
        subst h2
        exact hnd
      · rename_i hne
        have hfil : g.answers.filter (fun x => decide (x.username = u)) = [] := by
          by_contra hc
          exact hne hc
        have hmem : u ∉ g.answers.map (fun x => x.username) := by
          intro hin
          obtain ⟨x, hx, he⟩ := List.mem_map.mp hin
          have hnotin := List.filter_eq_nil_iff.mp hfil x hx
          simp only [decide_eq_true_eq] at hnotin
          exact hnotin he
        have hnd2 : (((g.answers ++ [(⟨u, a, t⟩ : Answer)]).map
            (fun x => x.username)).Nodup) := by
          rw [List.map_append, List.nodup_append]
          refine ⟨hnd, by simp, ?_⟩
          intro x hx hxu
          simp only [List.map_cons, List.map_nil, List.mem_singleton] at hxu
          subst hxu
          exact hmem hx
        simp only [] at h
        split at h
        · obtain ⟨deltas, hgg⟩ := end_round_state_shape _ _ h
          subst hgg
          simp
        · injection h with h2
          subst h2
          exact hnd2

/-- Helper: a successful `remove_client` never increases the player
count, and either keeps the answers or clears them. -/
theorem remove_client_pres (c : Client) (g gg : Game)
    (h : g.remove_client c = some gg) :
    gg.playerCount ≤ g.playerCount ∧
    (gg.answers = g.answers ∨ gg.answers = []) := by
  rw [Game.remove_client] at h
  split at h
  · cases h
  · split at h
    · cases h
    · have herase : (g.clients.erase c).length ≤ g.clients.length :=
        (List.erase_sublist c g.clients).length_le
      simp only [] at h
      split at h
      · obtain ⟨deltas, hgg⟩ := end_round_state_shape _ _ h
        subst hgg
        constructor
        · simp only [Game.playerCount]
          omega
        · right
          rfl
      · injection h with h2
        subst h2
        constructor
        · simp only [Game.playerCount]
          omega
        · left
          rfl

/-- Helper: `add_client` keeps the answers unchanged, and increases the
player count by one exactly when the session was not full (otherwise
it leaves the state alone). -/
theorem add_client_pres (o : RoundOracle) (c : Client) (u : String)
    (b : Bool) (g gg : Game) (h : g.add_client o c u = some (b, gg)) :
    gg.answers = g.answers ∧
    (gg.playerCount = g.playerCount ∨
      (g.is_full = false ∧ gg.playerCount = g.playerCount + 1)) := by
  rw [Game.add_client] at h
  split at h
  · rename_i hfull
    injection h with h2
    injection h2 with hb hg
    subst hb
    subst hg
    exact ⟨rfl, Or.inl rfl⟩
  · rename_i hfull
    have hf : g.is_full = false := by
      rw [Bool.eq_false_iff]
      exact hfull
    simp only [] at h
    split at h
    · injection h with h2
      injection h2 with hb hg
      subst hb
      subst hg
      refine ⟨rfl, Or.inr ⟨hf, ?_⟩⟩
      simp only [Game.playerCount, List.length_append, List.length_singleton]
      omega
    · split at h
      · obtain ⟨g3, hsr, hba⟩ := optionMap_eq_some _ _ _ h
        injection hba with hb hg
        subst hb
        subst hg
        obtain ⟨h1, h2, h3⟩ := start_round_pres o _ g3 hsr
        refine ⟨?_, Or.inr ⟨hf, ?_⟩⟩
        · rw [h1]
        · rw [h2]
          simp only [Game.playerCount, List.length_append,
            List.length_singleton]
          omega
      · injection h with h2
        injection h2 with hb hg
        subst hb
        subst hg
        refine ⟨rfl, Or.inr ⟨hf, ?_⟩⟩
        simp only [Game.playerCount, List.length_append, List.length_singleton]
        omega

/-- C3 counterexample: the reachable state `s6` (reached by: alice and
carol connect, four tracks are reported, the round starts, bob
connects mid-round and is parked in `waiting`, bob answers) records an
answer whose username "bob" is not the username of any client in
`clients`: a client sitting in `pendingClients` *can* get an answer
recorded for the current round. -/
theorem C3_answers_counterexample :
    Reachable s6 ∧ s6.answers.map (fun x => x.username) = ["bob"] ∧
    s6.waiting = [102] ∧ dictGet s6.users 102 = some "bob" ∧
    s6.clients.map (fun c => dictGet s6.users c) =
      [some "alice", some "carol"] := by
  refine ⟨?_, by decide, by decide, by decide, by decide⟩
  have h1 : Step Game.start s1 :=
    Step.addClient o0 100 "alice" true Game.start s1 (by decide)
  have h2 : Step s1 s2 :=
    Step.addClient o0 101 "carol" true s1 s2 (by decide)
  have h3 : Step s2 s3 := by
    have h := Step.addTracks [tr1, tr2, tr3, tr4] s2
    rwa [show s2.add_tracks [tr1, tr2, tr3, tr4] = s3 from by decide] at h
  have h4 : Step s3 s4 := Step.startRound oR s3 s4 (by decide)
  have h5 : Step s4 s5 :=
    Step.addClient o0 102 "bob" true s4 s5 (by decide)
  have h6 : Step s5 s6 :=
    Step.receivedAnswer 102 0 1 s5 s6 (by decide)
  exact Relation.ReflTransGen.tail (Relation.ReflTransGen.tail
    (Relation.ReflTransGen.tail (Relation.ReflTransGen.tail
      (Relation.ReflTransGen.tail (Relation.ReflTransGen.single h1) h2) h3)
      h4) h5) h6

/-- C3 amended: in every reachable session state the answers sequence
contains at most one entry per username.  (The claim's second half is
false: an answer's username need not belong to an active client — a
pending client's answer is recorded too, see the counterexample, and
answers of removed clients are not deleted.) -/
theorem C3_answers_amended (g : Game) (h : Reachable g) :
    (g.answers.map (fun x => x.username)).Nodup := by
  induction h with
  | refl => simp [Game.start]
  | tail hsteps hstep ih =>
    cases hstep with
    | addClient o c2 u2 b2 ga gb heq =>
      rw [(add_client_pres o c2 u2 b2 _ _ heq).1]
      exact ih
    | removeClient c2 ga gb heq =>
      rcases (remove_client_pres c2 _ _ heq).2 with he | he
      · rw [he]
        exact ih
      · rw [he]
        simp
    | addTracks ts ga =>
      exact ih
    | startRound o ga gb heq =>
      rw [(start_round_pres o _ _ heq).1]
      exact ih
    | receivedAnswer c2 a2 t2 ga gb heq =>
      exact received_answer_nodup c2 a2 t2 _ _ ih heq
    | roundTimedout ga gb heq =>
      obtain ⟨deltas, hgg⟩ := end_round_state_shape _ _ heq
      rw [hgg]
      simp

/-- C3 amended, witness: the invariant evaluated on the reachable
state `s1`. -/
theorem C3_answers_amended_witness :
    (s1.answers.map (fun x => x.username)).Nodup :=
  C3_answers_amended s1 (Relation.ReflTransGen.single
    (Step.addClient o0 100 "alice" true Game.start s1 (by decide)))

/-- C7: in every reachable session state (in particular under any
sequence of `AddClient` calls) the combined number of active and
pending clients never exceeds `MAX_PLAYERS`; and an `AddClient` call
made on a full session reports failure (`False`, the code's
`SessionFull` signal) and leaves the state unchanged. -/
theorem C7_capacity :
    (∀ g : Game, Reachable g → g.playerCount ≤ MAX_PLAYERS) ∧
    (∀ (o : RoundOracle) (c : Client) (u : String) (g : Game),
      g.is_full = true → g.add_client o c u = some (false, g)) := by
  constructor
  · intro g h
    induction h with
    | refl => decide
    | tail hsteps hstep ih =>
      cases hstep with
      | addClient o c2 u2 b2 ga gb heq =>
        rcases (add_client_pres o c2 u2 b2 _ _ heq).2 with he | hfe
        · rw [he]
          exact ih
        · obtain ⟨hf, he⟩ := hfe
          simp only [Game.is_full, ge_iff_le, decide_eq_false_iff_not,
            not_le, MAX_PLAYERS] at hf
          simp only [Game.playerCount, MAX_PLAYERS] at he ih ⊢
          omega
      | removeClient c2 ga gb heq =>
        have hle := (remove_client_pres c2 _ _ heq).1
        omega
      | addTracks ts ga =>
        exact ih
      | startRound o ga gb heq =>
        rw [(start_round_pres o _ _ heq).2.1]
        exact ih
      | receivedAnswer c2 a2 t2 ga gb heq =>
        have hpres := received_answer_pres c2 a2 t2 _ _ heq
        simp only [Game.playerCount, hpres.1, hpres.2.1] at ih ⊢
        exact ih
      | roundTimedout ga gb heq =>
        obtain ⟨deltas, hgg⟩ := end_round_state_shape _ _ heq
        rw [hgg]
        exact ih
  · intro o c2 u2 g hfull
    simp [Game.add_client, hfull]

/-- C7 witness: the bound evaluated at the initial state, and the
rejection evaluated on the concrete full game `gFull`. -/
theorem C7_capacity_witness :
    Game.start.playerCount ≤ MAX_PLAYERS ∧
    gFull.add_client oR 8 "erin" = some (false, gFull) :=
  ⟨C7_capacity.1 Game.start Relation.ReflTransGen.refl,
   C7_capacity.2 oR 8 "erin" gFull (by decide)⟩
